import Mathlib

/-!
Verification of the `hexo-renderer-mdx` plugin (`index.js`).

The development shallowly embeds the renderer's own logic: the document
hash (`crypto.createHash('md5').update(filePath).digest('hex').slice(0,8)`),
the `dynamicImport` shim, the per-render component collection
(`componentsForHydration`), the hydration-bundle step, the entry import-path
computation, the `componentDependencies` reverse index, and the content
selection between the on-disk file and the host-supplied text.  External
collaborators (Node's `path` module, `esbuild`, the filesystem) are modelled
as explicit parameters or `Except`-valued step outcomes.
-/

/-! ### Decimal representation: `Nat.repr` is injective
The placeholder ids embed a decimal sequence number via JS template
interpolation; uniqueness of the ids needs injectivity of the decimal
string representation. -/

/-- Numeric value of a decimal digit character. -/
def decDigitVal (c : Char) : Nat := c.toNat - '0'.toNat

/-- Decimal value of a digit-character list (most significant first). -/
def decCharsVal (l : List Char) : Nat :=
  l.foldl (fun a c => 10 * a + decDigitVal c) 0

theorem decCharsVal_append_singleton (l : List Char) (c : Char) :
    decCharsVal (l ++ [c]) = 10 * decCharsVal l + decDigitVal c := by
  simp [decCharsVal, List.foldl_append]

theorem decDigitVal_digitChar (d : Nat) (h : d < 10) :
    decDigitVal (Nat.digitChar d) = d := by
  interval_cases d <;> decide

theorem toDigitsCore_append (b f n : Nat) (acc : List Char) :
    Nat.toDigitsCore b f n acc = Nat.toDigitsCore b f n [] ++ acc := by
  induction f generalizing n acc with
  | zero => simp [Nat.toDigitsCore]
  | succ f ih =>
    simp only [Nat.toDigitsCore]
    by_cases h : n / b = 0
    · simp [h]
    · simp only [h, if_false]
      rw [ih (n / b) (Nat.digitChar (n % b) :: acc),
          ih (n / b) [Nat.digitChar (n % b)], List.append_assoc]
      rfl

theorem decCharsVal_toDigitsCore (f : Nat) :
    ∀ n : Nat, n < f → decCharsVal (Nat.toDigitsCore 10 f n []) = n := by
  induction f with
  | zero => intro n h; omega
  | succ f ih =>
    intro n h
    simp only [Nat.toDigitsCore]
    by_cases hdiv : n / 10 = 0
    · have hlt : n < 10 := by omega
      have hmod : n % 10 = n := Nat.mod_eq_of_lt hlt
      simp [hdiv, decCharsVal, hmod, decDigitVal_digitChar n hlt]
    · simp only [hdiv, if_false]
      rw [toDigitsCore_append, decCharsVal_append_singleton,
          ih (n / 10) (by omega),
          decDigitVal_digitChar (n % 10) (Nat.mod_lt n (by omega))]
      omega

theorem natRepr_injective : Function.Injective Nat.repr := by
  intro m n h
  have hm := decCharsVal_toDigitsCore (m + 1) m (Nat.lt_succ_self m)
  have hn := decCharsVal_toDigitsCore (n + 1) n (Nat.lt_succ_self n)
  have hlist : Nat.toDigitsCore 10 (m + 1) m [] = Nat.toDigitsCore 10 (n + 1) n [] :=
    congrArg String.data h
  rw [hlist] at hm
  omega

/-! ### MD5 (model of Node's `crypto` md5, used for the document hash) -/

/-- The 64 MD5 round constants `K[i] = floor(abs(sin(i+1)) * 2^32)`. -/
def md5K : List Nat :=
  [3614090360, 3905402710, 606105819, 3250441966,
   4118548399, 1200080426, 2821735955, 4249261313,
   1770035416, 2336552879, 4294925233, 2304563134,
   1804603682, 4254626195, 2792965006, 1236535329,
   4129170786, 3225465664, 643717713, 3921069994,
   3593408605, 38016083, 3634488961, 3889429448,
   568446438, 3275163606, 4107603335, 1163531501,
   2850285829, 4243563512, 1735328473, 2368359562,
   4294588738, 2272392833, 1839030562, 4259657740,
   2763975236, 1272893353, 4139469664, 3200236656,
   681279174, 3936430074, 3572445317, 76029189,
   3654602809, 3873151461, 530742520, 3299628645,
   4096336452, 1126891415, 2878612391, 4237533241,
   1700485571, 2399980690, 4293915773, 2240044497,
   1873313359, 4264355552, 2734768916, 1309151649,
   4149444226, 3174756917, 718787259, 3951481745]

/-- The 64 MD5 per-round left-rotation amounts. -/
def md5S : List Nat :=
  [7, 12, 17, 22, 7, 12, 17, 22, 7, 12, 17, 22, 7, 12, 17, 22,
   5, 9, 14, 20, 5, 9, 14, 20, 5, 9, 14, 20, 5, 9, 14, 20,
   4, 11, 16, 23, 4, 11, 16, 23, 4, 11, 16, 23, 4, 11, 16, 23,
   6, 10, 15, 21, 6, 10, 15, 21, 6, 10, 15, 21, 6, 10, 15, 21]

/-- 32-bit left rotation on naturals below `2^32`. -/
def rotl32 (x s : Nat) : Nat :=
  ((x <<< s) % 4294967296) ||| (x >>> (32 - s))

/-- MD5 round mixing function (rounds grouped by 16). -/
def md5F (i b c d : Nat) : Nat :=
  if i < 16 then (b &&& c) ||| ((b ^^^ 4294967295) &&& d)
  else if i < 32 then (d &&& b) ||| ((d ^^^ 4294967295) &&& c)
  else if i < 48 then b ^^^ c ^^^ d
  else c ^^^ (b ||| (d ^^^ 4294967295))

/-- MD5 message-word index for round `i`. -/
def md5G (i : Nat) : Nat :=
  if i < 16 then i
  else if i < 32 then (5 * i + 1) % 16
  else if i < 48 then (3 * i + 5) % 16
  else (7 * i) % 16

/-- One MD5 round on the state `(a, b, c, d)` with message words `M`. -/
def md5Step (M : List Nat) (st : Nat × Nat × Nat × Nat) (i : Nat) :
    Nat × Nat × Nat × Nat :=
  let a := st.1
  let b := st.2.1
  let c := st.2.2.1
  let d := st.2.2.2
  let f := (md5F i b c d + a + md5K.getD i 0 + M.getD (md5G i) 0) % 4294967296
  (d, (b + rotl32 f (md5S.getD i 0)) % 4294967296, b, c)

/-- Little-endian byte decomposition (`k` bytes). -/
def leBytes (k n : Nat) : List Nat :=
  (List.range k).map (fun i => (n >>> (8 * i)) % 256)

/-- Process one 64-byte block, updating the four-word MD5 state. -/
def md5ProcessBlock (st : Nat × Nat × Nat × Nat) (block : List Nat) :
    Nat × Nat × Nat × Nat :=
  let M := (List.range 16).map (fun j =>
    block.getD (4 * j) 0 + 256 * block.getD (4 * j + 1) 0 +
      65536 * block.getD (4 * j + 2) 0 + 16777216 * block.getD (4 * j + 3) 0)
  let r := (List.range 64).foldl (md5Step M) st
  ((st.1 + r.1) % 4294967296, (st.2.1 + r.2.1) % 4294967296,
   (st.2.2.1 + r.2.2.1) % 4294967296, (st.2.2.2 + r.2.2.2) % 4294967296)

/-- MD5 padding: `0x80`, zeros to 56 mod 64, then the 64-bit bit length. -/
def md5Pad (msg : List Nat) : List Nat :=
  let len := msg.length
  let z := (120 - (len + 1) % 64) % 64
  msg ++ [128] ++ List.replicate z 0 ++ leBytes 8 ((len * 8) % 18446744073709551616)

/-- Split a byte list into 64-byte chunks (fuel-structured for reduction). -/
def chunk64 : Nat → List Nat → List (List Nat)
  | 0, _ => []
  | _, [] => []
  | fuel + 1, l => l.take 64 :: chunk64 fuel (l.drop 64)

/-- MD5 digest (16 bytes) of a byte message. -/
def md5Bytes (msg : List Nat) : List Nat :=
  let padded := md5Pad msg
  let blocks := chunk64 padded.length padded
  let r := blocks.foldl md5ProcessBlock
    (1732584193, 4023233417, 2562383102, 271733878)
  leBytes 4 r.1 ++ leBytes 4 r.2.1 ++ leBytes 4 r.2.2.1 ++ leBytes 4 r.2.2.2

/-- Lowercase hexadecimal digit character. -/
def hexDigitChar (d : Nat) : Char :=
  if d < 10 then Char.ofNat ('0'.toNat + d) else Char.ofNat ('a'.toNat + (d - 10))

/-- Two-character lowercase hex rendering of a byte. -/
def hexByte (n : Nat) : List Char := [hexDigitChar (n / 16), hexDigitChar (n % 16)]

/-- UTF-8 encoding of one character. -/
def utf8EncodeChar (c : Char) : List Nat :=
  let n := c.toNat
  if n < 128 then [n]
  else if n < 2048 then [192 + n / 64, 128 + n % 64]
  else if n < 65536 then [224 + n / 4096, 128 + (n / 64) % 64, 128 + n % 64]
  else [240 + n / 262144, 128 + (n / 4096) % 64, 128 + (n / 64) % 64, 128 + n % 64]

/-- UTF-8 bytes of a string. -/
def utf8Bytes (s : String) : List Nat := (s.data.map utf8EncodeChar).flatten

/-- Lowercase hex MD5 digest of a string
(`crypto.createHash('md5').update(s).digest('hex')`). -/
def md5Hex (s : String) : String :=
  ((md5Bytes (utf8Bytes s)).map hexByte).flatten.asString

/-- The document hash of `index.js` line 210:
`crypto.createHash('md5').update(filePath).digest('hex').slice(0,8)`. -/
def documentHash (filePath : String) : String := (md5Hex filePath).take 8

/-! ### Per-render dynamic-import interception (`dynamicImport`, lines 150–187) -/

/-- One element of `componentsForHydration`: the placeholder id and the
recorded specifier (`{ id: placeholderId, spec: fsPath || asString }`). -/
structure ComponentRef where
  id : String
  spec : String
deriving DecidableEq, Repr

/-- The module namespace returned by the import shim
(`Promise.resolve({ default: Placeholder })`); the placeholder component is
identified by the `data-mdx-component` id it renders. -/
structure DynamicImportResult where
  defaultExport : String
deriving DecidableEq, Repr

/-- The `try { ... } catch (e) { /* ignore */ }` around URL resolution
(lines 157–169): an exception from the URL machinery leaves `fsPath`
undefined, as does a resolved URL whose protocol is not `file:`. -/
def resolvedFsPath (resolveAttempt : Except String (Option String)) : Option String :=
  match resolveAttempt with
  | Except.error _ => none
  | Except.ok o => o

/-- JS `Set.prototype.add`: insertion-ordered, no duplicates. -/
def addToSet (s : List String) (x : String) : List String :=
  if x ∈ s then s else s ++ [x]

/-- The `dynamicImport` shim (lines 152–187).  `resolveAttempt` is the
outcome of the external URL-resolution machinery inside the `try` block;
the shim itself is total.  Returns the updated `componentsForHydration`
list, the updated `data.dependencies` set, and the placeholder module. -/
def dynamicImport (resolveAttempt : Except String (Option String))
    (specifier : String) (componentsForHydration : List ComponentRef)
    (dependencies : List String) :
    List ComponentRef × List String × DynamicImportResult :=
  let asString := specifier
  let fsPath := resolvedFsPath resolveAttempt
  let placeholderId := "mdx-cmp-" ++ Nat.repr (componentsForHydration.length + 1)
  let comps := componentsForHydration ++ [⟨placeholderId, fsPath.getD asString⟩]
  let deps := match fsPath with
    | some p => addToSet dependencies p
    | none => dependencies
  (comps, deps, ⟨placeholderId⟩)

/-- One intercepted import threaded through the render state
(`componentsForHydration`, `data.dependencies`). -/
def renderImportsStep (st : List ComponentRef × List String)
    (imp : Except String (Option String) × String) :
    List ComponentRef × List String :=
  let r := dynamicImport imp.1 imp.2 st.1 st.2
  (r.1, r.2.1)

/-- A whole render's sequence of intercepted imports, threaded through
`dynamicImport` starting from the empty collection and dependency set. -/
def renderImports (imports : List (Except String (Option String) × String)) :
    List ComponentRef × List String :=
  imports.foldl renderImportsStep ([], [])

/-! ### Hydration bundle step (lines 202–256) -/

/-- Observable filesystem/bundler effects of the hydration branch. -/
inductive HydrationEffect where
  | wroteEntry
  | invokedBundler
deriving DecidableEq, Repr

/-- Outcomes of the three fallible steps inside the `try` block:
`require('esbuild')`, the entry-file write, and `esbuild.buildSync`. -/
structure BundleSteps where
  requireBundler : Except String Unit
  writeEntry : Except String Unit
  runBuild : Except String Unit

/-- Sequencing of the hydration `try` block: each step runs only if the
previous ones did not throw; the effect trace records a successful entry
write and any reached bundler invocation. -/
def runBundleSteps (steps : BundleSteps) : List HydrationEffect × Except String Unit :=
  match steps.requireBundler with
  | Except.error e => ([], Except.error e)
  | Except.ok _ =>
    match steps.writeEntry with
    | Except.error e => ([], Except.error e)
    | Except.ok _ =>
      match steps.runBuild with
      | Except.error e =>
        ([HydrationEffect.wroteEntry, HydrationEffect.invokedBundler], Except.error e)
      | Except.ok _ =>
        ([HydrationEffect.wroteEntry, HydrationEffect.invokedBundler], Except.ok ())

/-- The successful-hydration HTML (line 252): the server markup wrapped in
the hash-tagged container followed by the module script tag. -/
def wrapHydratedHtml (hash html : String) : String :=
  let outName := "mdx-hydrate-" ++ hash ++ ".js"
  "<div id=\"mdx-root-" ++ hash ++ "\">" ++ html ++
    "</div><script type=\"module\" src=\"/assets/" ++ outName ++ "\"></script>"

/-- Result of the hydration phase: the final HTML and the effect trace. -/
structure HydrationOutcome where
  finalHtml : String
  effects : List HydrationEffect
deriving DecidableEq, Repr

/-- Lines 203–256: `finalHtml` starts as the server-rendered `html`; only
when `componentsForHydration.length > 0` is the bundle attempted, and any
error in that path is caught, leaving `finalHtml = html`. -/
def mdxHydrationPhase (steps : BundleSteps) (hash html : String)
    (componentsForHydration : List ComponentRef) : HydrationOutcome :=
  if componentsForHydration.length > 0 then
    match runBundleSteps steps with
    | (effs, Except.ok _) => ⟨wrapHydratedHtml hash html, effs⟩
    | (effs, Except.error _) => ⟨html, effs⟩
  else ⟨html, []⟩

/-- The tail of `mdxRenderer` for one document: collect the render's
components, then run the hydration phase keyed by the document hash. -/
def mdxRendererModel (steps : BundleSteps) (filePath serverHtml : String)
    (imports : List (Except String (Option String) × String)) : HydrationOutcome :=
  mdxHydrationPhase steps (documentHash filePath) serverHtml (renderImports imports).1

/-! ### Entry import-path computation (lines 215–228) -/

/-- External `path`-module operations used by the entry generator. -/
structure PathOps where
  isAbsolute : String → Bool
  relative : String → String → String
  dirname : String → String

/-- `importPath.replace(/\\/g, '/')`: every backslash character becomes a
forward slash. -/
def slashNormalize (s : String) : String :=
  (s.data.map (fun ch => if ch = '\\' then '/' else ch)).asString

/-- `importPath.startsWith('.')`: the string's first character is `.`. -/
def startsWithDot (s : String) : Bool :=
  match s.data with
  | [] => false
  | c :: _ => c = '.'

/-- Lines 216–226: start from `c.spec`; if absolute, make it relative to the
entry file's directory; normalize backslashes; prefix `./` when the result
does not already start with `.`. -/
def mkImportPath (ops : PathOps) (entryPath spec : String) : String :=
  let importPath := spec
  let importPath :=
    if ops.isAbsolute importPath then ops.relative (ops.dirname entryPath) importPath
    else importPath
  let importPath := slashNormalize importPath
  if startsWithDot importPath then importPath else "./" ++ importPath

/-! ### Component dependency index (lines 276–295) -/

/-- The global `componentDependencies` map: component path to the set of MDX
documents that import it, both insertion-ordered. -/
abbrev DepIndex := List (String × List String)

/-- Lines 286–291: ensure the component has an entry, then add the document
path to its set. -/
def recordPair (componentDependencies : DepIndex)
    (componentPath docPath : String) : DepIndex :=
  if componentDependencies.any (fun kv => kv.1 = componentPath) then
    componentDependencies.map (fun kv =>
      if kv.1 = componentPath then (kv.1, addToSet kv.2 docPath) else kv)
  else
    componentDependencies ++ [(componentPath, [docPath])]

/-- `mdxRendererWithTracking` (lines 281–295): fold every recorded
dependency of the finished render into the global index. -/
def recordDependencies (idx : DepIndex) (docPath : String)
    (deps : List String) : DepIndex :=
  deps.foldl (fun i c => recordPair i c docPath) idx

/-- The document set currently recorded for a component. -/
def lookupDocs (idx : DepIndex) (componentPath : String) : List String :=
  match idx.find? (fun kv => kv.1 = componentPath) with
  | some kv => kv.2
  | none => []

/-- Membership of a (component, document) pair in the index. -/
def memDep (idx : DepIndex) (c d : String) : Prop :=
  ∃ kv ∈ idx, kv.1 = c ∧ d ∈ kv.2

/-- Presence of a component key in the index. -/
def memKey (idx : DepIndex) (c : String) : Prop := ∃ kv ∈ idx, kv.1 = c

/-- The `change` handler of `mdxComponentWatcher` (lines 325–362) clears
require caches, deletes the entry directory, invalidates `hexo.locals` and
re-runs clean/generate, but never reads or mutates `componentDependencies`:
its effect on the index is the identity. -/
def componentWatcherIndexEffect (idx : DepIndex) : DepIndex := idx

/-! ### Content selection (lines 103–110) -/

/-- `fs.readFileSync(filePath)` with fallback: the on-disk content is used
whenever the read succeeds; the host-supplied `text` only on a throw. -/
def mdxSourceContent (readFileResult : Except String String) (text : String) : String :=
  match readFileResult with
  | Except.ok fileContent => fileContent
  | Except.error _ => text

/-! ### Dependency Store (spec-modelled) -/

/-- Modelled from the spec: no `save`/`load` persistence functions exist in
the repository's code; §4.3 and §6 describe a Dependency Store serializing
the index as a JSON object whose keys are component paths and whose values
are arrays of document paths.  A path is representable verbatim when it
contains no double-quote character. -/
def NoQuote (s : String) : Prop := '"' ∉ s.data

instance (s : String) : Decidable (NoQuote s) := by
  unfold NoQuote
  infer_instance

/-- Modelled from the spec: JSON string literal for a path (verbatim,
no escape processing). -/
def jsonQuoteChars (s : String) : List Char := '"' :: (s.data ++ ['"'])

/-- Modelled from the spec: comma-separated continuation of a JSON string
array, one leading comma per element. -/
def encDocsTail : List String → List Char
  | [] => []
  | d :: rest => ',' :: (jsonQuoteChars d ++ encDocsTail rest)

/-- Modelled from the spec: the contents of a JSON string array. -/
def encDocs : List String → List Char
  | [] => []
  | d :: rest => jsonQuoteChars d ++ encDocsTail rest

/-- Modelled from the spec: one `"component":["doc",...]` member. -/
def encEntry (kv : String × List String) : List Char :=
  jsonQuoteChars kv.1 ++ ':' :: '[' :: (encDocs kv.2 ++ [']'])

/-- Modelled from the spec: comma-separated continuation of the object
members. -/
def encEntriesTail : DepIndex → List Char
  | [] => []
  | kv :: rest => ',' :: (encEntry kv ++ encEntriesTail rest)

/-- Modelled from the spec: the members of the serialized JSON object. -/
def encEntries : DepIndex → List Char
  | [] => []
  | kv :: rest => encEntry kv ++ encEntriesTail rest

/-- Modelled from the spec: `save(index)` serializes the full Dependency
Index to the well-known file as a flat JSON object. -/
def saveIndex (idx : DepIndex) : String :=
  ('\x7b' :: (encEntries idx ++ ['\x7d'])).asString

/-- Modelled from the spec: scan a JSON string body up to the closing
quote. -/
def parseStringAux : List Char → List Char → Option (String × List Char)
  | [], _ => none
  | c :: cs, acc =>
    if c = '"' then some (acc.reverse.asString, cs) else parseStringAux cs (c :: acc)

/-- Modelled from the spec: parse one JSON string literal. -/
def parseQuoted : List Char → Option (String × List Char)
  | [] => none
  | c :: cs => if c = '"' then parseStringAux cs [] else none

/-- Modelled from the spec: parse the continuation of a string array after
one element (`]` or `,"..."` repeatedly). -/
def parseDocsTail : Nat → List Char → Option (List String × List Char)
  | 0, _ => none
  | _ + 1, [] => none
  | fuel + 1, c :: rest =>
    if c = ']' then some ([], rest)
    else if c = ',' then
      match parseQuoted rest with
      | none => none
      | some (s, r1) =>
        match parseDocsTail fuel r1 with
        | none => none
        | some (ds, r2) => some (s :: ds, r2)
    else none

/-- Modelled from the spec: parse a string array body after `[`. -/
def parseDocs (fuel : Nat) (cs : List Char) : Option (List String × List Char) :=
  match cs with
  | [] => none
  | c :: rest =>
    if c = ']' then some ([], rest)
    else
      match parseQuoted cs with
      | none => none
      | some (s, r1) =>
        match parseDocsTail fuel r1 with
        | none => none
        | some (ds, r2) => some (s :: ds, r2)

/-- Modelled from the spec: parse one `"component":[...]` member. -/
def parseEntry (fuel : Nat) (cs : List Char) :
    Option ((String × List String) × List Char) :=
  match parseQuoted cs with
  | none => none
  | some (k, r1) =>
    match r1 with
    | c1 :: c2 :: r2 =>
      if c1 = ':' then
        if c2 = '[' then
          match parseDocs fuel r2 with
          | none => none
          | some (ds, r3) => some ((k, ds), r3)
        else none
      else none
    | _ => none

/-- Modelled from the spec: parse the continuation of the object members. -/
def parseEntriesTail : Nat → List Char → Option (DepIndex × List Char)
  | 0, _ => none
  | _ + 1, [] => none
  | fuel + 1, c :: rest =>
    if c = '\x7d' then some ([], rest)
    else if c = ',' then
      match parseEntry fuel rest with
      | none => none
      | some (kv, r1) =>
        match parseEntriesTail fuel r1 with
        | none => none
        | some (es, r2) => some (kv :: es, r2)
    else none

/-- Modelled from the spec: parse a whole serialized index, requiring the
input to be exactly one JSON object. -/
def parseIndexChars (fuel : Nat) (cs : List Char) : Option DepIndex :=
  match cs with
  | [] => none
  | c :: rest =>
    if c = '\x7b' then
      match rest with
      | [] => none
      | c2 :: r2 =>
        if c2 = '\x7d' then (if r2 = [] then some [] else none)
        else
          match parseEntry fuel rest with
          | none => none
          | some (kv, r1) =>
            match parseEntriesTail fuel r1 with
            | none => none
            | some (es, r3) => if r3 = [] then some (kv :: es) else none
    else none

/-- Modelled from the spec: deserialize a file's content, `none` meaning a
parse failure (corrupt file). -/
def parseIndex (s : String) : Option DepIndex :=
  parseIndexChars (s.length + 1) s.data

/-- Modelled from the spec: `load()` tolerates a missing (`none`) or corrupt
file by returning the empty index. -/
def loadIndex (file : Option String) : DepIndex :=
  match file with
  | none => []
  | some s =>
    match parseIndex s with
    | some idx => idx
    | none => []

/-- Every path occurring in the index is representable verbatim in a JSON
string literal. -/
def ValidIndex (idx : DepIndex) : Prop :=
  ∀ kv ∈ idx, NoQuote kv.1 ∧ ∀ d ∈ kv.2, NoQuote d

instance (idx : DepIndex) : Decidable (ValidIndex idx) := by
  unfold ValidIndex
  infer_instance

/-! ### Helper lemmas -/

theorem renderImportsStep_fst (st : List ComponentRef × List String)
    (imp : Except String (Option String) × String) :
    (renderImportsStep st imp).1 =
      st.1 ++ [⟨"mdx-cmp-" ++ Nat.repr (st.1.length + 1),
        (resolvedFsPath imp.1).getD imp.2⟩] := rfl

theorem renderImports_fold_length
    (imports : List (Except String (Option String) × String)) :
    ∀ st : List ComponentRef × List String,
      ((imports.foldl renderImportsStep st).1).length =
        st.1.length + imports.length := by
  induction imports with
  | nil => intro st; simp
  | cons i is ih =>
    intro st
    rw [List.foldl_cons, ih, renderImportsStep_fst]
    simp
    omega

theorem renderImports_length
    (imports : List (Except String (Option String) × String)) :
    (renderImports imports).1.length = imports.length := by
  simpa [renderImports] using renderImports_fold_length imports ([], [])

theorem renderImports_fold_ids
    (imports : List (Except String (Option String) × String)) :
    ∀ st : List ComponentRef × List String,
      ((imports.foldl renderImportsStep st).1).map ComponentRef.id =
        st.1.map ComponentRef.id ++
          (List.range imports.length).map
            (fun k => "mdx-cmp-" ++ Nat.repr (st.1.length + k + 1)) := by
  induction imports using List.reverseRecOn with
  | nil => intro st; simp
  | append_singleton is i ih =>
    intro st
    rw [List.foldl_append, List.foldl_cons, List.foldl_nil, renderImportsStep_fst,
      List.map_append, ih st, List.length_append]
    simp only [List.length_singleton]
    rw [List.range_succ, List.map_append, List.append_assoc]
    rw [renderImports_fold_length is st]
    simp

theorem mdxHydrationPhase_failure (steps : BundleSteps) (hash html : String)
    (comps : List ComponentRef) (hcomps : comps.length > 0)
    (hfail : (∃ e, steps.requireBundler = Except.error e) ∨
      (∃ e, steps.writeEntry = Except.error e) ∨
      (∃ e, steps.runBuild = Except.error e)) :
    (mdxHydrationPhase steps hash html comps).finalHtml = html := by
  unfold mdxHydrationPhase runBundleSteps
  rw [if_pos hcomps]
  rcases hr : steps.requireBundler with e | u <;>
    rcases hw : steps.writeEntry with e₂ | u₂ <;>
      rcases hb : steps.runBuild with e₃ | u₃ <;>
        simp_all

/-! ### Claim theorems -/

/-- C1: for every render that referenced at least one component, if any step
of the hydration-bundle path throws (missing bundler, entry-write failure,
build error), the error is caught and the render returns exactly the
server-rendered HTML, with no wrapping container and no script tag; the
embedding is a total function, so no exception escapes. -/
theorem mdx_C1_bundle_failure_degrades_to_server_html
    (steps : BundleSteps) (filePath serverHtml : String)
    (imports : List (Except String (Option String) × String))
    (href : imports ≠ [])
    (hfail : (∃ e, steps.requireBundler = Except.error e) ∨
      (∃ e, steps.writeEntry = Except.error e) ∨
      (∃ e, steps.runBuild = Except.error e)) :
    (mdxRendererModel steps filePath serverHtml imports).finalHtml = serverHtml := by
  unfold mdxRendererModel
  refine mdxHydrationPhase_failure _ _ _ _ ?_ hfail
  rw [renderImports_length]
  exact List.length_pos.mpr href

theorem mdx_C1_witness :
    (mdxRendererModel ⟨Except.ok (), Except.ok (), Except.error "esbuild build failed"⟩
      "post.mdx" "<h1>Hi</h1>"
      [(Except.ok (some "/c/Button.jsx"), "./Button.jsx")]).finalHtml = "<h1>Hi</h1>" :=
  mdx_C1_bundle_failure_degrades_to_server_html _ _ _ _
    (List.cons_ne_nil _ _) (Or.inr (Or.inr ⟨"esbuild build failed", rfl⟩))

/-- C2: a render with zero dynamic component imports never enters the
hydration-bundle path — no entry file is written, no bundler invoked — and
the returned HTML equals the server-rendered markup with nothing appended. -/
theorem mdx_C2_no_components_no_bundle
    (steps : BundleSteps) (filePath serverHtml : String)
    (imports : List (Except String (Option String) × String))
    (h : imports = []) :
    mdxRendererModel steps filePath serverHtml imports =
      ⟨serverHtml, []⟩ := by
  subst h
  rfl

theorem mdx_C2_witness :
    mdxRendererModel ⟨Except.ok (), Except.ok (), Except.ok ()⟩
      "plain.mdx" "<p>x</p>" [] = ⟨"<p>x</p>", []⟩ :=
  mdx_C2_no_components_no_bundle _ _ _ _ rfl

/-- C5: the derived short document hash is a pure deterministic function of
the path string alone — the embedding takes no randomness or time input, so
equal paths always yield identical hashes. -/
theorem mdx_C5_documentHash_deterministic (p₁ p₂ : String) (h : p₁ = p₂) :
    documentHash p₁ = documentHash p₂ := congrArg documentHash h

set_option maxRecDepth 20000 in
theorem mdx_C5_witness :
    documentHash "post.mdx" = documentHash "post.mdx" ∧
    documentHash "post.mdx" = "556e5112" :=
  ⟨mdx_C5_documentHash_deterministic "post.mdx" "post.mdx" rfl, by decide⟩

/-- C9: when the document file is readable, the renderer uses the on-disk
content and ignores the host-supplied text (which is used only when the
read throws); hence the rendered output can differ from the host-supplied
text whenever the two disagree. -/
theorem mdx_C9_disk_content_wins (fileContent text altText : String) :
    mdxSourceContent (Except.ok fileContent) text = fileContent ∧
    mdxSourceContent (Except.ok fileContent) text =
      mdxSourceContent (Except.ok fileContent) altText ∧
    (∀ e, mdxSourceContent (Except.error e) text = text) ∧
    (fileContent ≠ text → mdxSourceContent (Except.ok fileContent) text ≠ text) :=
  ⟨rfl, rfl, fun _ => rfl, fun h => h⟩

theorem mdx_C9_witness :
    mdxSourceContent (Except.ok "# disk content") "# host text" = "# disk content" ∧
    mdxSourceContent (Except.ok "# disk content") "# host text" ≠ "# host text" := by
  have h := mdx_C9_disk_content_wins "# disk content" "# host text" ""
  exact ⟨h.1, h.2.2.2 (by decide)⟩

/-- C4 counterexample: for the unresolvable specifier "node:fs" (URL
resolution throws), the raw specifier is NOT recorded in the render's
dependency set (`data.dependencies` stays empty); it is recorded only in
the `componentsForHydration` reference list. -/
theorem mdx_C4_counterexample :
    (dynamicImport (Except.error "ERR_INVALID_URL") "node:fs" [] []).2.1 = [] ∧
    "node:fs" ∉ (dynamicImport (Except.error "ERR_INVALID_URL") "node:fs" [] []).2.1 ∧
    (dynamicImport (Except.error "ERR_INVALID_URL") "node:fs" [] []).1 =
      [⟨"mdx-cmp-1", "node:fs"⟩] ∧
    (dynamicImport (Except.error "ERR_INVALID_URL") "node:fs" [] []).2.2 =
      ⟨"mdx-cmp-1"⟩ := by
  refine ⟨rfl, ?_, ?_, ?_⟩ <;> decide

/-- C4 (amended): `dynamicImport` never throws on an unresolvable
specifier — it treats the raw specifier as opaque and records it as-is in
the render's component reference list (`componentsForHydration`), leaves
the dependency set unchanged (only resolved filesystem paths are added
there), and still returns a valid placeholder module. -/
theorem mdx_C4_unresolvable_degrades
    (resolveAttempt : Except String (Option String)) (specifier : String)
    (comps : List ComponentRef) (deps : List String)
    (h : resolvedFsPath resolveAttempt = none) :
    dynamicImport resolveAttempt specifier comps deps =
      (comps ++ [⟨"mdx-cmp-" ++ Nat.repr (comps.length + 1), specifier⟩], deps,
        ⟨"mdx-cmp-" ++ Nat.repr (comps.length + 1)⟩) := by
  simp [dynamicImport, h]

theorem mdx_C4_witness :
    dynamicImport (Except.ok none) "https://cdn.example.com/x.js" [] [] =
      ([⟨"mdx-cmp-1", "https://cdn.example.com/x.js"⟩], [], ⟨"mdx-cmp-1"⟩) := by
  rw [mdx_C4_unresolvable_degrades (Except.ok none)
    "https://cdn.example.com/x.js" [] [] rfl]
  decide

/-! ### Index helper lemmas -/

theorem addToSet_mem_of_mem (s : List String) (x y : String) (h : y ∈ s) :
    y ∈ addToSet s x := by
  unfold addToSet
  by_cases hx : x ∈ s
  · simpa [hx]
  · simp [hx, List.mem_append, h]

theorem addToSet_self_mem (s : List String) (x : String) : x ∈ addToSet s x := by
  unfold addToSet
  by_cases hx : x ∈ s <;> simp [hx]

theorem addToSet_idem (s : List String) (x : String) :
    addToSet (addToSet s x) x = addToSet s x := by
  unfold addToSet
  by_cases hx : x ∈ s <;> simp [hx]

theorem addToSet_nodup (s : List String) (x : String) (h : s.Nodup) :
    (addToSet s x).Nodup := by
  unfold addToSet
  by_cases hx : x ∈ s
  · simpa [hx]
  · simp only [hx, if_false]
    rw [List.nodup_append]
    refine ⟨h, List.nodup_singleton x, ?_⟩
    intro a ha hmem
    simp only [List.mem_singleton] at hmem
    subst hmem
    exact hx ha

theorem recordPair_of_present (idx : DepIndex) (c d : String)
    (hp : idx.any (fun kv => kv.1 = c) = true) :
    recordPair idx c d =
      idx.map (fun kv => if kv.1 = c then (kv.1, addToSet kv.2 d) else kv) := by
  simp [recordPair, hp]

theorem recordPair_of_absent (idx : DepIndex) (c d : String)
    (hp : idx.any (fun kv => kv.1 = c) = false) :
    recordPair idx c d = idx ++ [(c, [d])] := by
  simp [recordPair, hp]

theorem any_key_map_eq (idx : DepIndex) (c d : String) :
    ((idx.map (fun kv => if kv.1 = c then (kv.1, addToSet kv.2 d) else kv)).any
      (fun kv => kv.1 = c)) = idx.any (fun kv => kv.1 = c) := by
  rw [List.any_map]
  congr 1
  funext kv
  by_cases h : kv.1 = c <;> simp [h]

theorem recordPair_recordPair (idx : DepIndex) (c d : String) :
    recordPair (recordPair idx c d) c d = recordPair idx c d := by
  cases hp : idx.any (fun kv => kv.1 = c) with
  | true =>
    rw [recordPair_of_present idx c d hp]
    have hp2 := (any_key_map_eq idx c d).trans hp
    rw [recordPair_of_present _ c d hp2, List.map_map]
    apply List.map_congr_left
    intro kv _
    by_cases h : kv.1 = c <;> simp [Function.comp, h, addToSet_idem]
  | false =>
    rw [recordPair_of_absent idx c d hp]
    have hall : ∀ kv ∈ idx, ¬(kv.1 = c) := by simpa using List.any_eq_false.mp hp
    have hp2 : ((idx ++ [(c, [d])]).any (fun kv => kv.1 = c)) = true := by simp
    rw [recordPair_of_present _ c d hp2, List.map_append]
    have h1 : idx.map (fun kv => if kv.1 = c then (kv.1, addToSet kv.2 d) else kv) = idx := by
      rw [show idx = idx.map id from (List.map_id idx).symm]
      rw [List.map_map]
      apply List.map_congr_left
      intro kv hkv
      simp [Function.comp, hall kv hkv]
    have h2 : ([((c : String), ([d] : List String))].map
        (fun kv => if kv.1 = c then (kv.1, addToSet kv.2 d) else kv)) = [(c, [d])] := by
      simp [addToSet]
    rw [h1, h2]

theorem lookupDocs_cons (kv : String × List String) (idx : DepIndex) (c : String) :
    lookupDocs (kv :: idx) c = if kv.1 = c then kv.2 else lookupDocs idx c := by
  by_cases h : kv.1 = c
  · simp [lookupDocs, List.find?_cons_of_pos, h]
  · simp [lookupDocs, List.find?_cons_of_neg, h]

theorem lookupDocs_recordPair_self (idx : DepIndex) (c d : String) :
    lookupDocs (recordPair idx c d) c = addToSet (lookupDocs idx c) d := by
  induction idx with
  | nil => simp [recordPair, lookupDocs, addToSet]
  | cons kv idx ih =>
    by_cases hk : kv.1 = c
    · have hp : ((kv :: idx).any (fun kv => kv.1 = c)) = true := by simp [hk]
      rw [recordPair_of_present _ c d hp, List.map_cons,
        lookupDocs_cons, lookupDocs_cons]
      simp [hk]
    · cases hp : idx.any (fun kv => kv.1 = c) with
      | true =>
        have hp1 : ((kv :: idx).any (fun kv => kv.1 = c)) = true := by simp [hp]
        rw [recordPair_of_present _ c d hp1, List.map_cons,
          lookupDocs_cons, lookupDocs_cons]
        rw [recordPair_of_present _ c d hp] at ih
        simpa [hk] using ih
      | false =>
        have hp1 : ((kv :: idx).any (fun kv => kv.1 = c)) = false := by simp [hk, hp]
        rw [recordPair_of_absent _ c d hp1, List.cons_append,
          lookupDocs_cons, lookupDocs_cons]
        rw [recordPair_of_absent _ c d hp] at ih
        simpa [hk] using ih

/-- C6: recording the same (component, document) pair twice is a no-op on
the index's observable content — the whole index after the second recording
equals the index after the first — and the component's document set stays
free of duplicates. -/
theorem mdx_C6_record_pair_idempotent (idx : DepIndex) (c d : String) :
    recordPair (recordPair idx c d) c d = recordPair idx c d ∧
    ((lookupDocs idx c).Nodup → (lookupDocs (recordPair idx c d) c).Nodup) := by
  refine ⟨recordPair_recordPair idx c d, ?_⟩
  intro h
  rw [lookupDocs_recordPair_self]
  exact addToSet_nodup _ _ h

theorem mdx_C6_witness :
    recordPair (recordPair [("/c/Counter.jsx", ["/p/old.mdx"])] "/c/Counter.jsx" "/p/a.mdx")
        "/c/Counter.jsx" "/p/a.mdx" =
      recordPair [("/c/Counter.jsx", ["/p/old.mdx"])] "/c/Counter.jsx" "/p/a.mdx" ∧
    (lookupDocs (recordPair [("/c/Counter.jsx", ["/p/old.mdx"])]
      "/c/Counter.jsx" "/p/a.mdx") "/c/Counter.jsx").Nodup :=
  ⟨(mdx_C6_record_pair_idempotent [("/c/Counter.jsx", ["/p/old.mdx"])]
      "/c/Counter.jsx" "/p/a.mdx").1,
   (mdx_C6_record_pair_idempotent [("/c/Counter.jsx", ["/p/old.mdx"])]
      "/c/Counter.jsx" "/p/a.mdx").2 (by decide)⟩

theorem memDep_recordPair (idx : DepIndex) (c d a b : String)
    (h : memDep idx a b) : memDep (recordPair idx c d) a b := by
  obtain ⟨kv, hkv, hk, hb⟩ := h
  cases hp : idx.any (fun kv => kv.1 = c) with
  | true =>
    rw [recordPair_of_present _ c d hp]
    by_cases h2 : kv.1 = c
    · refine ⟨(kv.1, addToSet kv.2 d), ?_, hk, addToSet_mem_of_mem _ _ _ hb⟩
      have he : (if kv.1 = c then ((kv.1, addToSet kv.2 d) : String × List String)
          else kv) = (kv.1, addToSet kv.2 d) := if_pos h2
      rw [← he]
      exact List.mem_map_of_mem _ hkv
    · refine ⟨kv, ?_, hk, hb⟩
      have he : (if kv.1 = c then ((kv.1, addToSet kv.2 d) : String × List String)
          else kv) = kv := if_neg h2
      rw [← he]
      exact List.mem_map_of_mem _ hkv
  | false =>
    rw [recordPair_of_absent _ c d hp]
    exact ⟨kv, List.mem_append_left _ hkv, hk, hb⟩

theorem memKey_recordPair (idx : DepIndex) (c d a : String)
    (h : memKey idx a) : memKey (recordPair idx c d) a := by
  obtain ⟨kv, hkv, hk⟩ := h
  cases hp : idx.any (fun kv => kv.1 = c) with
  | true =>
    rw [recordPair_of_present _ c d hp]
    by_cases h2 : kv.1 = c
    · refine ⟨(kv.1, addToSet kv.2 d), ?_, hk⟩
      have he : (if kv.1 = c then ((kv.1, addToSet kv.2 d) : String × List String)
          else kv) = (kv.1, addToSet kv.2 d) := if_pos h2
      rw [← he]
      exact List.mem_map_of_mem _ hkv
    · refine ⟨kv, ?_, hk⟩
      have he : (if kv.1 = c then ((kv.1, addToSet kv.2 d) : String × List String)
          else kv) = kv := if_neg h2
      rw [← he]
      exact List.mem_map_of_mem _ hkv
  | false =>
    rw [recordPair_of_absent _ c d hp]
    exact ⟨kv, List.mem_append_left _ hkv, hk⟩

theorem memDep_recordDependencies (idx : DepIndex) (doc : String)
    (deps : List String) (a b : String) (h : memDep idx a b) :
    memDep (recordDependencies idx doc deps) a b := by
  unfold recordDependencies
  induction deps generalizing idx with
  | nil => simpa
  | cons x xs ih => exact ih _ (memDep_recordPair _ _ _ _ _ h)

theorem memKey_recordDependencies (idx : DepIndex) (doc : String)
    (deps : List String) (a : String) (h : memKey idx a) :
    memKey (recordDependencies idx doc deps) a := by
  unfold recordDependencies
  induction deps generalizing idx with
  | nil => simpa
  | cons x xs ih => exact ih _ (memKey_recordPair _ _ _ _ h)

/-- C10: the dependency index only grows — recording a finished render's
dependencies preserves every existing component key and every existing
(component, document) membership, and the component watcher's change
handler leaves the index untouched. -/
theorem mdx_C10_index_monotone (idx : DepIndex) (doc : String)
    (deps : List String) (a b : String) :
    (memKey idx a → memKey (recordDependencies idx doc deps) a) ∧
    (memDep idx a b → memDep (recordDependencies idx doc deps) a b) ∧
    componentWatcherIndexEffect idx = idx :=
  ⟨memKey_recordDependencies idx doc deps a,
   memDep_recordDependencies idx doc deps a b, rfl⟩

theorem mdx_C10_witness :
    memDep (recordDependencies [("/c/B.jsx", ["/p/a.mdx"])] "/p/b.mdx"
      ["/c/B.jsx", "/c/C.jsx"]) "/c/B.jsx" "/p/a.mdx" :=
  (mdx_C10_index_monotone [("/c/B.jsx", ["/p/a.mdx"])] "/p/b.mdx"
    ["/c/B.jsx", "/c/C.jsx"] "/c/B.jsx" "/p/a.mdx").2.1
    ⟨("/c/B.jsx", ["/p/a.mdx"]), by simp, rfl, by simp⟩

set_option maxRecDepth 20000 in
/-- C3 counterexample: the placeholder id of the first intercepted import is
the literal `mdx-cmp-1` for every document; it is not of the form
`<document-hash>-<sequence>` — for the document `post.mdx`, whose hash is
`556e5112`, that form would be `556e5112-1`. -/
theorem mdx_C3_counterexample :
    ((renderImports [(Except.ok (some "/c/Button.jsx"), "./Button.jsx")]).1.map
      ComponentRef.id) = ["mdx-cmp-1"] ∧
    documentHash "post.mdx" = "556e5112" ∧
    "mdx-cmp-1" ≠ documentHash "post.mdx" ++ "-" ++ Nat.repr 1 := by
  refine ⟨by decide, by decide, by decide⟩

/-- C3 (amended): each intercepted import's placeholder id has the form
`mdx-cmp-<sequence>` — a fixed literal prefix, not the document hash — with
the decimal sequence numbers assigned sequentially from 1, and the ids are
unique within the render. -/
theorem mdx_C3_placeholder_ids_sequential_unique
    (imports : List (Except String (Option String) × String)) :
    ((renderImports imports).1.map ComponentRef.id) =
      (List.range imports.length).map (fun k => "mdx-cmp-" ++ Nat.repr (k + 1)) ∧
    ((renderImports imports).1.map ComponentRef.id).Nodup := by
  have h := renderImports_fold_ids imports ([], [])
  have hids : ((renderImports imports).1.map ComponentRef.id) =
      (List.range imports.length).map (fun k => "mdx-cmp-" ++ Nat.repr (k + 1)) := by
    simpa [renderImports] using h
  refine ⟨hids, ?_⟩
  rw [hids]
  have hinj : Function.Injective (fun k => "mdx-cmp-" ++ Nat.repr (k + 1)) := by
    intro x y hxy
    have hd : ("mdx-cmp-" ++ Nat.repr (x + 1)).data =
        ("mdx-cmp-" ++ Nat.repr (y + 1)).data := congrArg String.data hxy
    rw [String.data_append, String.data_append] at hd
    have htail := List.append_cancel_left hd
    have hval : decCharsVal (Nat.toDigitsCore 10 (x + 2) (x + 1) []) =
        decCharsVal (Nat.toDigitsCore 10 (y + 2) (y + 1) []) :=
      congrArg decCharsVal htail
    have h1 := decCharsVal_toDigitsCore (x + 2) (x + 1) (by omega)
    have h2 := decCharsVal_toDigitsCore (y + 2) (y + 1) (by omega)
    omega
  exact (List.nodup_range imports.length).map hinj

/-- C8: the entry-file import path for a component reference is the resolved
path, converted to a path relative to the entry file's directory exactly
when it is absolute, backslashes normalized to forward slashes, and
prefixed with `./` exactly when the normalized result does not already
start with the `.` relative marker. -/
theorem mdx_C8_import_path (ops : PathOps) (entryPath spec : String) :
    (startsWithDot (slashNormalize (if ops.isAbsolute spec then
        ops.relative (ops.dirname entryPath) spec else spec)) = true →
      mkImportPath ops entryPath spec =
        slashNormalize (if ops.isAbsolute spec then
          ops.relative (ops.dirname entryPath) spec else spec)) ∧
    (startsWithDot (slashNormalize (if ops.isAbsolute spec then
        ops.relative (ops.dirname entryPath) spec else spec)) = false →
      mkImportPath ops entryPath spec =
        "./" ++ slashNormalize (if ops.isAbsolute spec then
          ops.relative (ops.dirname entryPath) spec else spec)) := by
  unfold mkImportPath
  constructor <;> intro h <;> simp [h]

/-- Sample `path`-module behaviour on a POSIX layout, for the C8 witness. -/
def samplePathOpsPosix : PathOps :=
  ⟨fun s => s.data.headD ' ' = '/', fun _ _ => "../components/Button.jsx",
    fun _ => "/p/.hexo-mdx-entry"⟩

/-- Sample `path`-module behaviour producing a backslash path without a
leading relative marker, for the C8 witness. -/
def samplePathOpsWin : PathOps :=
  ⟨fun s => s.data.headD ' ' = '/', fun _ _ => "components\\Button.jsx",
    fun _ => "/p/.hexo-mdx-entry"⟩

theorem mdx_C8_witness :
    mkImportPath samplePathOpsPosix "/p/.hexo-mdx-entry/mdx-entry-h.mjs"
      "/p/components/Button.jsx" = "../components/Button.jsx" ∧
    mkImportPath samplePathOpsWin "/p/.hexo-mdx-entry/mdx-entry-h.mjs"
      "/p/components/Button.jsx" = "./components/Button.jsx" := by
  constructor
  · rw [(mdx_C8_import_path samplePathOpsPosix "/p/.hexo-mdx-entry/mdx-entry-h.mjs"
      "/p/components/Button.jsx").1 (by decide)]
    decide
  · rw [(mdx_C8_import_path samplePathOpsWin "/p/.hexo-mdx-entry/mdx-entry-h.mjs"
      "/p/components/Button.jsx").2 (by decide)]
    decide

/-! ### Store round-trip lemmas -/

theorem asString_data (s : String) : s.data.asString = s := rfl

theorem parseStringAux_spec :
    ∀ (l : List Char), '"' ∉ l → ∀ (acc rest : List Char),
      parseStringAux (l ++ '"' :: rest) acc =
        some ((acc.reverse ++ l).asString, rest) := by
  intro l
  induction l with
  | nil => intro _ acc rest; simp [parseStringAux]
  | cons c l ih =>
    intro hl acc rest
    have hc : ¬(c = '"') := fun h => hl (h ▸ List.mem_cons_self c l)
    simp only [List.cons_append, parseStringAux, if_neg hc, List.append_eq]
    rw [ih (fun h => hl (List.mem_cons_of_mem _ h)) (c :: acc) rest]
    simp [List.reverse_cons, List.append_assoc]

theorem parseQuoted_spec (s : String) (hs : NoQuote s) (rest : List Char) :
    parseQuoted ('"' :: (s.data ++ '"' :: rest)) = some (s, rest) := by
  rw [show parseQuoted ('"' :: (s.data ++ '"' :: rest)) =
    parseStringAux (s.data ++ '"' :: rest) [] from rfl]
  rw [parseStringAux_spec s.data hs [] rest]
  simp [asString_data]

theorem parseDocsTail_spec :
    ∀ (ds : List String) (fuel : Nat) (rest : List Char),
      (∀ d ∈ ds, NoQuote d) → ds.length + 1 ≤ fuel →
      parseDocsTail fuel (encDocsTail ds ++ ']' :: rest) = some (ds, rest) := by
  intro ds
  induction ds with
  | nil =>
    intro fuel rest _ hfuel
    obtain ⟨f, rfl⟩ : ∃ f, fuel = f + 1 := ⟨fuel - 1, by omega⟩
    simp [encDocsTail, parseDocsTail]
  | cons d ds ih =>
    intro fuel rest hvalid hfuel
    simp only [List.length_cons] at hfuel
    obtain ⟨f, rfl⟩ : ∃ f, fuel = f + 1 := ⟨fuel - 1, by omega⟩
    have hd := hvalid d (List.mem_cons_self d ds)
    have hrec := fun x hx => hvalid x (List.mem_cons_of_mem d hx)
    simp only [encDocsTail, jsonQuoteChars, List.cons_append, List.append_assoc,
      List.nil_append, List.singleton_append, List.append_eq]
    simp only [parseDocsTail, if_neg (by decide : ¬((',' : Char) = ']')),
      eq_self_iff_true, if_true]
    rw [parseQuoted_spec d hd (encDocsTail ds ++ ']' :: rest)]
    dsimp only
    rw [ih f rest hrec (by omega)]

theorem parseDocs_spec (ds : List String) (fuel : Nat) (rest : List Char)
    (hvalid : ∀ d ∈ ds, NoQuote d) (hfuel : ds.length + 1 ≤ fuel) :
    parseDocs fuel (encDocs ds ++ ']' :: rest) = some (ds, rest) := by
  cases ds with
  | nil => simp [encDocs, parseDocs]
  | cons d ds =>
    have hd := hvalid d (List.mem_cons_self d ds)
    have hrec := fun x hx => hvalid x (List.mem_cons_of_mem d hx)
    have hfds : ds.length + 1 ≤ fuel := by
      simp only [List.length_cons] at hfuel; omega
    simp only [encDocs, jsonQuoteChars, List.cons_append, List.append_assoc,
      List.nil_append, List.singleton_append, List.append_eq]
    simp only [parseDocs, if_neg (by decide : ¬(('"' : Char) = ']'))]
    rw [parseQuoted_spec d hd (encDocsTail ds ++ ']' :: rest)]
    dsimp only
    rw [parseDocsTail_spec ds fuel rest hrec hfds]

theorem parseEntry_spec (kv : String × List String) (fuel : Nat) (rest : List Char)
    (hk : NoQuote kv.1) (hds : ∀ d ∈ kv.2, NoQuote d)
    (hfuel : kv.2.length + 1 ≤ fuel) :
    parseEntry fuel (encEntry kv ++ rest) = some (kv, rest) := by
  obtain ⟨k, ds⟩ := kv
  simp only [encEntry, jsonQuoteChars, List.cons_append, List.append_assoc,
    List.nil_append, List.singleton_append, List.append_eq]
  simp only [parseEntry]
  rw [parseQuoted_spec k hk (':' :: '[' :: (encDocs ds ++ ']' :: rest))]
  dsimp only
  rw [if_pos rfl, if_pos rfl, parseDocs_spec ds fuel rest hds hfuel]

theorem parseEntry_spec' (k : String) (ds : List String) (fuel : Nat)
    (rest : List Char) (hk : NoQuote k) (hds : ∀ d ∈ ds, NoQuote d)
    (hfuel : ds.length + 1 ≤ fuel) :
    parseEntry fuel
        ('"' :: (k.data ++ '"' :: ':' :: '[' :: (encDocs ds ++ ']' :: rest))) =
      some ((k, ds), rest) := by
  have h := parseEntry_spec (k, ds) fuel rest hk hds hfuel
  simpa [encEntry, jsonQuoteChars, List.cons_append, List.append_assoc,
    List.nil_append, List.singleton_append] using h

/-- Fuel (number of parsed items plus one per level) sufficient for an
index. -/
def idxFuel : DepIndex → Nat
  | [] => 1
  | kv :: es => kv.2.length + 1 + idxFuel es

theorem idxFuel_pos (es : DepIndex) : 1 ≤ idxFuel es := by
  cases es with
  | nil => simp [idxFuel]
  | cons kv es => simp only [idxFuel]; omega

theorem parseEntriesTail_spec :
    ∀ (es : DepIndex) (fuel : Nat) (rest : List Char),
      ValidIndex es → idxFuel es ≤ fuel →
      parseEntriesTail fuel (encEntriesTail es ++ '\x7d' :: rest) =
        some (es, rest) := by
  intro es
  induction es with
  | nil =>
    intro fuel rest _ hfuel
    simp only [idxFuel] at hfuel
    obtain ⟨f, rfl⟩ : ∃ f, fuel = f + 1 := ⟨fuel - 1, by omega⟩
    simp [encEntriesTail, parseEntriesTail]
  | cons kv es ih =>
    intro fuel rest hvalid hfuel
    simp only [idxFuel] at hfuel
    have hpos := idxFuel_pos es
    obtain ⟨f, rfl⟩ : ∃ f, fuel = f + 1 := ⟨fuel - 1, by omega⟩
    have hkv := hvalid kv (List.mem_cons_self kv es)
    have hes : ValidIndex es := fun x hx => hvalid x (List.mem_cons_of_mem kv hx)
    have hf1 : kv.2.length + 1 ≤ f := by omega
    have hf2 : idxFuel es ≤ f := by omega
    simp only [encEntriesTail, List.cons_append, List.append_assoc,
      List.nil_append, List.append_eq]
    simp only [parseEntriesTail,
      if_neg (by decide : ¬((',' : Char) = '\x7d')), eq_self_iff_true, if_true]
    rw [parseEntry_spec kv f (encEntriesTail es ++ '\x7d' :: rest) hkv.1 hkv.2 hf1]
    dsimp only
    rw [ih f rest hes hf2]

theorem encDocsTail_length_ge (ds : List String) :
    ds.length ≤ (encDocsTail ds).length := by
  induction ds with
  | nil => simp [encDocsTail]
  | cons d ds ih =>
    simp only [encDocsTail, jsonQuoteChars, List.length_cons, List.length_append,
      List.length_nil, List.length_singleton]
    omega

theorem encDocs_length_ge (ds : List String) :
    ds.length ≤ (encDocs ds).length := by
  cases ds with
  | nil => simp [encDocs]
  | cons d ds =>
    have h := encDocsTail_length_ge ds
    simp only [encDocs, jsonQuoteChars, List.length_cons, List.length_append,
      List.length_nil, List.length_singleton]
    omega

theorem kvLen_le_encEntry (kv : String × List String) :
    kv.2.length ≤ (encEntry kv).length := by
  have h := encDocs_length_ge kv.2
  simp only [encEntry, jsonQuoteChars, List.length_cons, List.length_append,
    List.length_nil, List.length_singleton]
  omega

theorem idxFuel_le_encEntriesTail (es : DepIndex) :
    idxFuel es ≤ (encEntriesTail es).length + 1 := by
  induction es with
  | nil => simp [idxFuel, encEntriesTail]
  | cons kv es ih =>
    have h1 := kvLen_le_encEntry kv
    simp only [idxFuel, encEntriesTail, List.length_cons, List.length_append]
    omega

theorem parseIndexChars_save (k : String) (ds : List String) (es : DepIndex)
    (fuel : Nat) (hk : NoQuote k) (hds : ∀ d ∈ ds, NoQuote d)
    (hes : ValidIndex es) (hf1 : ds.length + 1 ≤ fuel)
    (hf2 : idxFuel es ≤ fuel) :
    parseIndexChars fuel ('\x7b' :: (encEntries ((k, ds) :: es) ++ ['\x7d'])) =
      some ((k, ds) :: es) := by
  simp only [encEntries, encEntry, jsonQuoteChars, List.cons_append,
    List.append_assoc, List.nil_append, List.singleton_append, List.append_eq]
  simp only [parseIndexChars, eq_self_iff_true, if_true,
    if_neg (by decide : ¬(('"' : Char) = '\x7d'))]
  rw [parseEntry_spec' k ds fuel (encEntriesTail es ++ ['\x7d']) hk hds hf1]
  dsimp only
  rw [show (encEntriesTail es ++ ['\x7d'] : List Char) =
    encEntriesTail es ++ '\x7d' :: [] from rfl]
  rw [parseEntriesTail_spec es fuel [] hes hf2]
  dsimp only
  rw [if_pos rfl]

theorem parseIndex_saveIndex (idx : DepIndex) (h : ValidIndex idx) :
    parseIndex (saveIndex idx) = some idx := by
  cases idx with
  | nil => rfl
  | cons kv es =>
    obtain ⟨k, ds⟩ := kv
    have hkv := h (k, ds) (List.mem_cons_self _ es)
    have hes : ValidIndex es := fun x hx => h x (List.mem_cons_of_mem _ hx)
    have h1 : ds.length ≤ (encEntry (k, ds)).length := kvLen_le_encEntry (k, ds)
    have h2 := idxFuel_le_encEntriesTail es
    show parseIndexChars ((saveIndex ((k, ds) :: es)).length + 1)
        ('\x7b' :: (encEntries ((k, ds) :: es) ++ ['\x7d'])) = some ((k, ds) :: es)
    have hlen : (saveIndex ((k, ds) :: es)).length =
        (encEntry (k, ds)).length + (encEntriesTail es).length + 2 := by
      show ('\x7b' :: (encEntries ((k, ds) :: es) ++ ['\x7d'])).length =
        (encEntry (k, ds)).length + (encEntriesTail es).length + 2
      simp only [encEntries, List.length_cons, List.length_append,
        List.length_nil, List.length_singleton]
    rw [hlen]
    exact parseIndexChars_save k ds es _ hkv.1 hkv.2 hes (by omega) (by omega)

/-- C7 (store modelled from the spec): `save` followed by `load` yields the
identical Dependency Index, and `load` of a missing (`none`) or corrupt
(unparseable) file returns the empty index instead of failing. -/
theorem mdx_C7_store_roundtrip (idx : DepIndex) (h : ValidIndex idx) :
    loadIndex (some (saveIndex idx)) = idx ∧
    loadIndex none = [] ∧
    (∀ s, parseIndex s = none → loadIndex (some s) = []) := by
  refine ⟨?_, rfl, ?_⟩
  · simp [loadIndex, parseIndex_saveIndex idx h]
  · intro s hs
    simp [loadIndex, hs]

theorem mdx_C7_witness :
    ValidIndex [("/p/source/components/Button.jsx",
      ["/p/source/_posts/a.mdx", "/p/source/_posts/b.mdx"])] ∧
    loadIndex (some (saveIndex [("/p/source/components/Button.jsx",
        ["/p/source/_posts/a.mdx", "/p/source/_posts/b.mdx"])])) =
      [("/p/source/components/Button.jsx",
        ["/p/source/_posts/a.mdx", "/p/source/_posts/b.mdx"])] :=
  ⟨by decide,
   (mdx_C7_store_roundtrip [("/p/source/components/Button.jsx",
      ["/p/source/_posts/a.mdx", "/p/source/_posts/b.mdx"])] (by decide)).1⟩
